import Mathlib

/-!
Verification of the wordle-solver core (scoring, bucketing, guess ranking,
depth-limited search) against its natural-language specification.

The Rust source is shallowly embedded: bytes are `Nat`, `u8` arithmetic is
explicit `% 256`, panics and failed assertions are `Option.none`, and the
process-global scratch table (`SEEN_TABLE` / `COUNTER`) is threaded as an
explicit state value.
-/

namespace Wordle

/-- WORD_LEN from the source: fixed word length. -/
def WORD_LEN : Nat := 5

/-- MAX_BUCKET from the source: `3 * 3 * 3 * 3 * 3` feedback codes. -/
def MAX_BUCKET : Nat := 3 * 3 * 3 * 3 * 3

/-- CharScore enum from the source. Discriminants follow declaration order:
Absent = 0, Correct = 1, Present = 2. -/
inductive CharScore where
  | Absent
  | Correct
  | Present
deriving DecidableEq

/-- Rust `c as u8` on a `CharScore` value: the declaration-order discriminant. -/
def CharScore.ord : CharScore → Nat
  | .Absent => 0
  | .Correct => 1
  | .Present => 2

/-- encode_score from the source: `cs.map(|c| c as u8).fold(0, |acc, c| acc * 3 + c)`
performed in `u8`, hence the explicit `% 256` at each step. -/
def encodeScore (cs : List CharScore) : Nat :=
  cs.foldl (fun acc c => (acc * 3 + c.ord) % 256) 0

/-- Mathematical (non-wrapping) version of the same fold, used to state that
the `u8` accumulator never wraps on words of length WORD_LEN. -/
def encodeScorePure (cs : List CharScore) : Nat :=
  cs.foldl (fun acc c => acc * 3 + c.ord) 0

/-- check_presence from the source: scan the answer left to right; on the first
slot that is not used and holds `c`, mark it used and report a hit. Returns the
hit flag together with the updated `used` array. -/
def checkPresence (c : Nat) : List Nat → List Bool → Bool × List Bool
  | [], us => (false, us)
  | _ :: _, [] => (false, [])
  | d :: ds, u :: us =>
    if !u && c == d then
      (true, true :: us)
    else
      let r := checkPresence c ds us
      (r.1, u :: r.2)

/-- Pass 2 of score_wordle: walk the guess positions in order (paired with the
pass-1 `corrects` flags), threading the `used` array through `checkPresence`. -/
def pass2 : List (Bool × Nat) → List Nat → List Bool → List CharScore
  | [], _, _ => []
  | (isCorrect, c) :: rest, answer, used =>
    if isCorrect then
      CharScore.Correct :: pass2 rest answer used
    else
      let r := checkPresence c answer used
      if r.1 then
        CharScore.Present :: pass2 rest answer r.2
      else
        CharScore.Absent :: pass2 rest answer r.2

/-- CharScore sequence computed by score_wordle body: pass 1 marks exact
matches in `corrects` and `used` (both start as the same flags), then pass 2
produces the per-position scores in guess order. -/
def sourceCharScores (guess answer : List Nat) : List CharScore :=
  let corrects := List.zipWith (fun g a => g == a) guess answer
  pass2 (corrects.zip guess) answer corrects

/-- score_wordle from the source: two length asserts (fatal on violation,
modelled as `none`), then the two-pass score, encoded. -/
def scoreWordle (guess answer : List Nat) : Option Nat :=
  if guess.length = WORD_LEN then
    if answer.length = WORD_LEN then
      some (encodeScore (sourceCharScores guess answer))
    else none
  else none

/-! Spec-side scoring rule, written from the specification text: pass 2 scans
the answer from its first position to its last, skipping consumed slots, and
on the first unconsumed slot holding the same symbol marks the guess position
Present and consumes that slot. -/

/-- Modelled from the spec: the index of the first answer slot that is not yet
consumed and holds symbol `c`, scanning from the first position to the last. -/
def specFirstSlot (c : Nat) : List Nat → List Bool → Option Nat
  | [], _ => none
  | _ :: _, [] => none
  | d :: ds, u :: us =>
    if !u && c == d then some 0
    else (specFirstSlot c ds us).map (· + 1)

/-- Modelled from the spec: pass 2 over the remaining guess positions in
order; a position marked correct in pass 1 stays Correct, otherwise the first
unconsumed matching answer slot (if any) is consumed and the position is
Present, else Absent. -/
def specPass2 : List (Bool × Nat) → List Nat → List Bool → List CharScore
  | [], _, _ => []
  | (isCorrect, c) :: rest, answer, consumed =>
    if isCorrect then
      CharScore.Correct :: specPass2 rest answer consumed
    else
      match specFirstSlot c answer consumed with
      | some j => CharScore.Present :: specPass2 rest answer (consumed.set j true)
      | none => CharScore.Absent :: specPass2 rest answer consumed

/-- Modelled from the spec: the full two-pass feedback rule. Pass 1 marks
each position `i` with `guess[i] == answer[i]` as Correct and consumes answer
slot `i`; pass 2 is `specPass2`. -/
def specTwoPass (guess answer : List Nat) : List CharScore :=
  let corrects := List.zipWith (fun g a => g == a) guess answer
  specPass2 (corrects.zip guess) answer corrects

theorem checkPresence_eq_spec (c : Nat) :
    ∀ (answer : List Nat) (used : List Bool),
      checkPresence c answer used =
        match specFirstSlot c answer used with
        | some j => (true, used.set j true)
        | none => (false, used) := by
  intro answer
  induction answer with
  | nil => intro used; simp [checkPresence, specFirstSlot]
  | cons d ds ih =>
    intro used
    cases used with
    | nil => simp [checkPresence, specFirstSlot]
    | cons u us =>
      by_cases h : (!u && c == d) = true
      · simp [checkPresence, specFirstSlot, h, List.set]
      · simp only [checkPresence, specFirstSlot, h, if_neg, Bool.not_eq_true] at *
        rw [ih us]
        cases hfs : specFirstSlot c ds us with
        | none => simp [hfs, h]
        | some j => simp [hfs, h, List.set]

theorem pass2_eq_spec :
    ∀ (ps : List (Bool × Nat)) (answer : List Nat) (used : List Bool),
      pass2 ps answer used = specPass2 ps answer used := by
  intro ps
  induction ps with
  | nil => intro answer used; rfl
  | cons p rest ih =>
    intro answer used
    obtain ⟨isCorrect, c⟩ := p
    by_cases h : isCorrect
    · simp [pass2, specPass2, h, ih]
    · simp only [pass2, specPass2, h, if_neg, Bool.false_eq_true, not_false_iff]
      rw [checkPresence_eq_spec]
      cases hfs : specFirstSlot c answer used with
      | none => simp [ih]
      | some j => simp [ih]

theorem sourceCharScores_eq_spec (guess answer : List Nat) :
    sourceCharScores guess answer = specTwoPass guess answer :=
  pass2_eq_spec _ _ _

/-! Arithmetic facts about the score encoding. -/

theorem ord_le_two (c : CharScore) : c.ord ≤ 2 := by
  cases c <;> simp [CharScore.ord]

theorem encFold_lt (cs : List CharScore) :
    ∀ acc : Nat,
      cs.foldl (fun a c => a * 3 + c.ord) acc < (acc + 1) * 3 ^ cs.length := by
  induction cs with
  | nil => intro acc; simp
  | cons c cs ih =>
    intro acc
    have h := ih (acc * 3 + c.ord)
    have hc : c.ord ≤ 2 := ord_le_two c
    calc (c :: cs).foldl (fun a c => a * 3 + c.ord) acc
        = cs.foldl (fun a c => a * 3 + c.ord) (acc * 3 + c.ord) := rfl
      _ < (acc * 3 + c.ord + 1) * 3 ^ cs.length := h
      _ ≤ ((acc + 1) * 3) * 3 ^ cs.length := by
          have : acc * 3 + c.ord + 1 ≤ (acc + 1) * 3 := by omega
          exact Nat.mul_le_mul_right _ this
      _ = (acc + 1) * 3 ^ (c :: cs).length := by
          simp [List.length_cons, Nat.pow_succ]; ring

theorem encodeScorePure_lt (cs : List CharScore) :
    encodeScorePure cs < 3 ^ cs.length := by
  have h := encFold_lt cs 0
  simpa [encodeScorePure] using h

theorem encFold_split (cs : List CharScore) :
    ∀ acc : Nat,
      cs.foldl (fun a c => a * 3 + c.ord) acc
        = acc * 3 ^ cs.length + encodeScorePure cs := by
  induction cs with
  | nil => intro acc; simp [encodeScorePure]
  | cons c cs ih =>
    intro acc
    have h1 := ih (acc * 3 + c.ord)
    have h2 := ih c.ord
    calc (c :: cs).foldl (fun a c => a * 3 + c.ord) acc
        = cs.foldl (fun a c => a * 3 + c.ord) (acc * 3 + c.ord) := rfl
      _ = (acc * 3 + c.ord) * 3 ^ cs.length + encodeScorePure cs := h1
      _ = acc * 3 ^ (c :: cs).length
            + (c.ord * 3 ^ cs.length + encodeScorePure cs) := by
          simp [List.length_cons, Nat.pow_succ]; ring
      _ = acc * 3 ^ (c :: cs).length + encodeScorePure (c :: cs) := by
          rw [show encodeScorePure (c :: cs)
                = cs.foldl (fun a c => a * 3 + c.ord) c.ord by
              simp [encodeScorePure], h2]

theorem encodeScorePure_cons (c : CharScore) (cs : List CharScore) :
    encodeScorePure (c :: cs) = c.ord * 3 ^ cs.length + encodeScorePure cs := by
  have h := encFold_split cs c.ord
  simpa [encodeScorePure] using h

theorem encFold_no_wrap (cs : List CharScore) :
    ∀ acc : Nat, acc * 3 ^ cs.length + 3 ^ cs.length ≤ 256 →
      cs.foldl (fun a c => (a * 3 + c.ord) % 256) acc
        = cs.foldl (fun a c => a * 3 + c.ord) acc := by
  induction cs with
  | nil => intro acc _; rfl
  | cons c cs ih =>
    intro acc hacc
    have hpow : (1 : Nat) ≤ 3 ^ cs.length := Nat.one_le_pow _ _ (by omega)
    have hlen : acc * 3 ^ (c :: cs).length + 3 ^ (c :: cs).length
        = (acc * 3) * 3 ^ cs.length + 3 * 3 ^ cs.length := by
      simp [List.length_cons, Nat.pow_succ]; ring
    have hc : c.ord ≤ 2 := ord_le_two c
    have hsmall : acc * 3 + c.ord < 256 := by
      have h1 : (acc * 3) * 3 ^ cs.length + 3 * 3 ^ cs.length ≤ 256 := by
        rw [← hlen]; exact hacc
      have h2 : acc * 3 ≤ (acc * 3) * 3 ^ cs.length :=
        Nat.le_mul_of_pos_right _ (by omega)
      have h3 : 3 ≤ 3 * 3 ^ cs.length := Nat.le_mul_of_pos_right _ (by omega)
      omega
    have hnext : (acc * 3 + c.ord) * 3 ^ cs.length + 3 ^ cs.length ≤ 256 := by
      have h1 : (acc * 3 + c.ord) * 3 ^ cs.length + 3 ^ cs.length
          ≤ (acc * 3 + 2) * 3 ^ cs.length + 3 ^ cs.length := by
        have := Nat.mul_le_mul_right (3 ^ cs.length) (by omega :
          acc * 3 + c.ord ≤ acc * 3 + 2)
        omega
      have h2 : (acc * 3 + 2) * 3 ^ cs.length + 3 ^ cs.length
          = (acc * 3) * 3 ^ cs.length + 3 * 3 ^ cs.length := by ring
      rw [h2] at h1
      rw [hlen] at hacc
      omega
    calc (c :: cs).foldl (fun a c => (a * 3 + c.ord) % 256) acc
        = cs.foldl (fun a c => (a * 3 + c.ord) % 256) ((acc * 3 + c.ord) % 256) := rfl
      _ = cs.foldl (fun a c => (a * 3 + c.ord) % 256) (acc * 3 + c.ord) := by
          rw [Nat.mod_eq_of_lt hsmall]
      _ = cs.foldl (fun a c => a * 3 + c.ord) (acc * 3 + c.ord) := ih _ hnext
      _ = (c :: cs).foldl (fun a c => a * 3 + c.ord) acc := rfl

theorem encodeScore_eq_pure (cs : List CharScore) (h : cs.length ≤ WORD_LEN) :
    encodeScore cs = encodeScorePure cs := by
  have hpow : 3 ^ cs.length + 0 ≤ 256 := by
    have : 3 ^ cs.length ≤ 3 ^ WORD_LEN :=
      Nat.pow_le_pow_right (by omega) h
    simp only [WORD_LEN] at this
    omega
  have h0 := encFold_no_wrap cs 0 (by simpa using hpow)
  simpa [encodeScore, encodeScorePure] using h0

theorem encodeScorePure_inj :
    ∀ (cs ds : List CharScore), cs.length = ds.length →
      encodeScorePure cs = encodeScorePure ds → cs = ds := by
  intro cs
  induction cs with
  | nil => intro ds hl _; cases ds with
    | nil => rfl
    | cons d ds => simp at hl
  | cons c cs ih =>
    intro ds hl he
    cases ds with
    | nil => simp at hl
    | cons d ds =>
      have hlen : cs.length = ds.length := by simpa using hl
      rw [encodeScorePure_cons, encodeScorePure_cons, hlen] at he
      have hc := encodeScorePure_lt cs
      have hd := encodeScorePure_lt ds
      rw [hlen] at hc
      have hord : c.ord = d.ord ∧ encodeScorePure cs = encodeScorePure ds := by
        cases c <;> cases d <;> simp [CharScore.ord] at he ⊢ <;> omega
      have hcd : c = d := by
        cases c <;> cases d <;> simp_all [CharScore.ord]
      rw [hcd, ih ds hlen hord.2]

/-- Decode a base-3 digit back into a CharScore. -/
def ordInv : Nat → CharScore
  | 0 => CharScore.Absent
  | 1 => CharScore.Correct
  | _ => CharScore.Present

theorem ord_ordInv (n : Nat) (h : n < 3) : (ordInv n).ord = n := by
  match n, h with
  | 0, _ => rfl
  | 1, _ => rfl
  | 2, _ => rfl

theorem encodeScorePure_surj :
    ∀ (n m : Nat), m < 3 ^ n →
      ∃ cs : List CharScore, cs.length = n ∧ encodeScorePure cs = m := by
  intro n
  induction n with
  | zero =>
    intro m hm
    refine ⟨[], rfl, ?_⟩
    simp [encodeScorePure]
    omega
  | succ n ih =>
    intro m hm
    have hpow : 0 < 3 ^ n := Nat.pos_pow_of_pos _ (by omega)
    have hq : m / 3 ^ n < 3 := by
      rw [Nat.div_lt_iff_lt_mul hpow]
      rw [Nat.pow_succ] at hm
      omega
    have hr : m % 3 ^ n < 3 ^ n := Nat.mod_lt _ hpow
    obtain ⟨cs, hlen, henc⟩ := ih (m % 3 ^ n) hr
    refine ⟨ordInv (m / 3 ^ n) :: cs, by simp [hlen], ?_⟩
    rw [encodeScorePure_cons, hlen, henc, ord_ordInv _ hq,
      Nat.mul_comm (m / 3 ^ n) (3 ^ n)]
    exact Nat.div_add_mod m (3 ^ n)

theorem pass2_length :
    ∀ (ps : List (Bool × Nat)) (answer : List Nat) (used : List Bool),
      (pass2 ps answer used).length = ps.length := by
  intro ps
  induction ps with
  | nil => intro answer used; rfl
  | cons p rest ih =>
    intro answer used
    obtain ⟨isCorrect, c⟩ := p
    by_cases h : isCorrect
    · simp [pass2, h, ih]
    · simp only [pass2, h, Bool.false_eq_true, if_neg, not_false_iff]
      split <;> simp [ih]

theorem sourceCharScores_length (guess answer : List Nat)
    (hg : guess.length = WORD_LEN) (ha : answer.length = WORD_LEN) :
    (sourceCharScores guess answer).length = WORD_LEN := by
  simp [sourceCharScores, pass2_length, hg, ha]

/-- C1: score_wordle computes exactly the two-pass feedback rule of the spec
(pass 1 exact matches consuming answer slots, pass 2 leftmost-first presence
consumption), encoded; and the four concrete scenarios from the spec hold:
score("weary","wills") = [Correct,Absent,Absent,Absent,Absent],
score("pilot","leaks") = [Absent,Absent,Present,Absent,Absent],
score("kazoo","tools") = [Absent,Absent,Absent,Present,Present],
score("prize","prize") = [Correct,Correct,Correct,Correct,Correct]. -/
theorem scoreWordle_matches_two_pass_rule :
    (∀ guess answer : List Nat,
      guess.length = WORD_LEN → answer.length = WORD_LEN →
      scoreWordle guess answer = some (encodeScore (specTwoPass guess answer)))
    ∧ scoreWordle [119, 101, 97, 114, 121] [119, 105, 108, 108, 115]
        = some (encodeScore [CharScore.Correct, CharScore.Absent,
            CharScore.Absent, CharScore.Absent, CharScore.Absent])
    ∧ scoreWordle [112, 105, 108, 111, 116] [108, 101, 97, 107, 115]
        = some (encodeScore [CharScore.Absent, CharScore.Absent,
            CharScore.Present, CharScore.Absent, CharScore.Absent])
    ∧ scoreWordle [107, 97, 122, 111, 111] [116, 111, 111, 108, 115]
        = some (encodeScore [CharScore.Absent, CharScore.Absent,
            CharScore.Absent, CharScore.Present, CharScore.Present])
    ∧ scoreWordle [112, 114, 105, 122, 101] [112, 114, 105, 122, 101]
        = some (encodeScore [CharScore.Correct, CharScore.Correct,
            CharScore.Correct, CharScore.Correct, CharScore.Correct]) := by
  refine ⟨?_, by decide, by decide, by decide, by decide⟩
  intro guess answer hg ha
  simp [scoreWordle, hg, ha, sourceCharScores_eq_spec]

/-- Witness for C1 at the concrete pair ("weary", "wills"). -/
theorem scoreWordle_matches_two_pass_rule_witness :
    scoreWordle [119, 101, 97, 114, 121] [119, 105, 108, 108, 115]
      = some (encodeScore
          (specTwoPass [119, 101, 97, 114, 121] [119, 105, 108, 108, 115])) :=
  scoreWordle_matches_two_pass_rule.1 _ _ rfl rfl

/-- C7: encode_score, restricted to CharScore sequences of length WORD_LEN,
is a bijection onto [0, 3^WORD_LEN): it equals the plain base-3 fold with
digits Absent = 0, Correct = 1, Present = 2 most-significant first, it is
injective on length-WORD_LEN sequences, and every integer below 3^WORD_LEN
is attained. -/
theorem encode_score_bijection :
    (∀ cs : List CharScore, cs.length = WORD_LEN →
      encodeScore cs = encodeScorePure cs ∧ encodeScore cs < 3 ^ WORD_LEN)
    ∧ (∀ cs ds : List CharScore, cs.length = WORD_LEN → ds.length = WORD_LEN →
        encodeScore cs = encodeScore ds → cs = ds)
    ∧ (∀ m : Nat, m < 3 ^ WORD_LEN →
        ∃ cs : List CharScore, cs.length = WORD_LEN ∧ encodeScore cs = m) := by
  refine ⟨?_, ?_, ?_⟩
  · intro cs h
    have he := encodeScore_eq_pure cs (le_of_eq h)
    refine ⟨he, ?_⟩
    rw [he, ← h]
    exact encodeScorePure_lt cs
  · intro cs ds hc hd he
    rw [encodeScore_eq_pure cs (le_of_eq hc), encodeScore_eq_pure ds (le_of_eq hd)] at he
    exact encodeScorePure_inj cs ds (hc.trans hd.symm) he
  · intro m hm
    obtain ⟨cs, hlen, henc⟩ := encodeScorePure_surj WORD_LEN m hm
    exact ⟨cs, hlen, by rw [encodeScore_eq_pure cs (le_of_eq hlen), henc]⟩

/-- Witness for C7: the bound at a concrete sequence and a concrete preimage. -/
theorem encode_score_bijection_witness :
    encodeScore [CharScore.Present, CharScore.Absent, CharScore.Correct,
        CharScore.Present, CharScore.Correct] < 3 ^ WORD_LEN
    ∧ ∃ cs : List CharScore, cs.length = WORD_LEN ∧ encodeScore cs = 200 :=
  ⟨(encode_score_bijection.1 [CharScore.Present, CharScore.Absent, CharScore.Correct,
      CharScore.Present, CharScore.Correct] rfl).2,
    encode_score_bijection.2.2 200 (by decide)⟩

/-- C8: score_wordle aborts (failed length assert, modelled as `none`) exactly
when the guess's or the answer's length differs from WORD_LEN; on two length-5
inputs it always returns an encoded feedback code. -/
theorem scoreWordle_fails_iff_bad_length :
    ∀ guess answer : List Nat,
      scoreWordle guess answer = none ↔
        ¬ (guess.length = WORD_LEN ∧ answer.length = WORD_LEN) := by
  intro guess answer
  unfold scoreWordle
  by_cases hg : guess.length = WORD_LEN <;> by_cases ha : answer.length = WORD_LEN <;>
    simp [hg, ha]

/-- C10: every score actually produced by score_wordle is below
MAX_BUCKET = 3^5 = 243, and the u8 accumulator of encode_score never wraps
while computing it (the wrapping fold and the plain fold agree), so
`bucket_vec[score]` and `SEEN_TABLE[score]`, both of length MAX_BUCKET, are
indexed in bounds. -/
theorem score_below_MAX_BUCKET :
    ∀ (guess answer : List Nat) (v : Nat),
      scoreWordle guess answer = some v →
      v < MAX_BUCKET
      ∧ encodeScore (sourceCharScores guess answer)
          = encodeScorePure (sourceCharScores guess answer)
      ∧ v = encodeScore (sourceCharScores guess answer) := by
  intro guess answer v hv
  unfold scoreWordle at hv
  by_cases hg : guess.length = WORD_LEN
  · by_cases ha : answer.length = WORD_LEN
    · simp only [hg, ha, if_pos, Option.some.injEq] at hv
      subst hv
      have hlen := sourceCharScores_length guess answer hg ha
      have he := encodeScore_eq_pure _ (le_of_eq hlen)
      refine ⟨?_, he, rfl⟩
      rw [he]
      have hlt := encodeScorePure_lt (sourceCharScores guess answer)
      rw [hlen] at hlt
      calc encodeScorePure (sourceCharScores guess answer)
          < 3 ^ WORD_LEN := hlt
        _ = MAX_BUCKET := by decide
    · simp [hg, ha] at hv
  · simp [hg] at hv

/-- Witness for C10 at the concrete pair ("weary", "wills"), whose score is 81. -/
theorem score_below_MAX_BUCKET_witness :
    81 < MAX_BUCKET
    ∧ encodeScore (sourceCharScores [119, 101, 97, 114, 121] [119, 105, 108, 108, 115])
        = encodeScorePure (sourceCharScores [119, 101, 97, 114, 121] [119, 105, 108, 108, 115])
    ∧ 81 = encodeScore (sourceCharScores [119, 101, 97, 114, 121] [119, 105, 108, 108, 115]) :=
  score_below_MAX_BUCKET [119, 101, 97, 114, 121] [119, 105, 108, 108, 115] 81 (by decide)

/-! The Scorer: word pools and the precomputed score cache. Word lists are
read from files by the excluded I/O layer, so the pools and the cache appear
here as plain structure fields; `Scorer::new` additionally guarantees
`score_cache[g][a] = score_wordle(guesses[g], answers[a])`, which claim
theorems take as a hypothesis where they need it. -/

structure Scorer where
  guesses : List (List Nat)
  answers : List (List Nat)
  score_cache : List (List Nat)
deriving DecidableEq

/-- Cache row for guess index `g` (Rust `self.score_cache[guess]`). -/
def rowAt (s : Scorer) (g : Nat) : List Nat :=
  s.score_cache.getD g []

/-- Entry of a cache row at answer index `a` (Rust `row[*answer]`). -/
def rowVal (row : List Nat) (a : Nat) : Nat :=
  row.getD a 0

/-- Cache lookup `self.score_cache[guess][*answer]`. -/
def cacheAt (s : Scorer) (g a : Nat) : Nat :=
  rowVal (rowAt s g) a

/-- Distinct scores in first-occurrence order. The source groups through a
HashMap whose iteration order is unspecified; the grouping itself is
order-insensitive and the final bucket order is fixed by the sort below. -/
def keysIn (l : List Nat) : List Nat :=
  l.foldl (fun ks k => if k ∈ ks then ks else ks ++ [k]) []

/-- Bucket order used by both bucketing functions: descending length. -/
def descLen : List Nat → List Nat → Prop :=
  fun a b => b.length ≤ a.length

instance : DecidableRel descLen := fun a b => Nat.decLe b.length a.length

instance : IsTotal (List Nat) descLen :=
  ⟨fun a b => Nat.le_total b.length a.length⟩

instance : IsTrans (List Nat) descLen :=
  ⟨fun _ _ _ hab hbc => Nat.le_trans hbc hab⟩

/-- Buckets of `answers` under one cache row, before sorting: one bucket per
distinct score, each holding the answers with that score in input order. -/
def preBuckets (row : List Nat) (answers : List Nat) : List (List Nat) :=
  (keysIn (answers.map (rowVal row))).map
    (fun k => answers.filter (fun a => rowVal row a == k))

/-- bucket_answers from the source: group the answer indices by cached score,
then sort buckets by descending size. -/
def bucketRow (row : List Nat) (answers : List Nat) : List (List Nat) :=
  List.insertionSort descLen (preBuckets row answers)

/-- bucket_answers, on a Scorer and guess index. -/
def bucketAnswers (s : Scorer) (guess : Nat) (answers : List Nat) : List (List Nat) :=
  bucketRow (rowAt s guess) answers

/-- bucket_answers3 before sorting: the fixed table of MAX_BUCKET buckets
(`bucket_vec`), bucket `k` holding the answers whose cached score is `k`, in
input order — exactly the state of `bucket_vec` after the push loop. -/
def pre3Buckets (row : List Nat) (answers : List Nat) : List (List Nat) :=
  (List.range MAX_BUCKET).map
    (fun k => answers.filter (fun a => rowVal row a == k))

/-- bucket_answers3 from the source: all MAX_BUCKET buckets (empty ones
included), sorted by descending size. -/
def bucketRow3 (row : List Nat) (answers : List Nat) : List (List Nat) :=
  List.insertionSort descLen (pre3Buckets row answers)

/-- bucket_answers3, on a Scorer and guess index. -/
def bucketAnswers3 (s : Scorer) (guess : Nat) (answers : List Nat) : List (List Nat) :=
  bucketRow3 (rowAt s guess) answers

/-! Properties of the grouping `keys.map (fun k => answers.filter (· == k))`. -/

theorem keysIn_go_nodup :
    ∀ (l acc : List Nat), acc.Nodup →
      (l.foldl (fun ks k => if k ∈ ks then ks else ks ++ [k]) acc).Nodup := by
  intro l
  induction l with
  | nil => intro acc h; exact h
  | cons k l ih =>
    intro acc h
    simp only [List.foldl_cons]
    by_cases hk : k ∈ acc
    · rw [if_pos hk]; exact ih acc h
    · rw [if_neg hk]
      exact ih _ (by simp [List.nodup_append, h, hk])

theorem keysIn_nodup (l : List Nat) : (keysIn l).Nodup :=
  keysIn_go_nodup l [] List.nodup_nil

theorem keysIn_go_mem :
    ∀ (l acc : List Nat) (x : Nat),
      x ∈ l.foldl (fun ks k => if k ∈ ks then ks else ks ++ [k]) acc ↔
        x ∈ acc ∨ x ∈ l := by
  intro l
  induction l with
  | nil => intro acc x; simp
  | cons k l ih =>
    intro acc x
    simp only [List.foldl_cons]
    by_cases hk : k ∈ acc
    · rw [if_pos hk, ih]
      constructor
      · rintro (h | h)
        · exact Or.inl h
        · exact Or.inr (List.mem_cons_of_mem _ h)
      · rintro (h | h)
        · exact Or.inl h
        · rcases List.mem_cons.mp h with rfl | h
          · exact Or.inl hk
          · exact Or.inr h
    · rw [if_neg hk, ih]
      simp only [List.mem_append, List.mem_singleton, List.mem_cons]
      tauto

theorem keysIn_mem (l : List Nat) (x : Nat) : x ∈ keysIn l ↔ x ∈ l := by
  rw [keysIn, keysIn_go_mem]
  simp

theorem grouped_share (row : List Nat) (answers keys : List Nat) :
    ∀ b ∈ keys.map (fun k => answers.filter (fun a => rowVal row a == k)),
      ∀ x ∈ b, ∀ y ∈ b, rowVal row x = rowVal row y := by
  intro b hb x hx y hy
  obtain ⟨k, _, rfl⟩ := List.mem_map.mp hb
  have hxk := (List.mem_filter.mp hx).2
  have hyk := (List.mem_filter.mp hy).2
  simp only [beq_iff_eq] at hxk hyk
  omega

theorem grouped_disjoint (row : List Nat) (answers keys : List Nat)
    (hk : keys.Nodup) :
    (keys.map (fun k => answers.filter (fun a => rowVal row a == k))).Pairwise
      (fun b c => ∀ x ∈ b, x ∉ c) := by
  rw [List.pairwise_map]
  refine hk.imp ?_
  intro k1 k2 hne x hx hx2
  have h1 := (List.mem_filter.mp hx).2
  have h2 := (List.mem_filter.mp hx2).2
  simp only [beq_iff_eq] at h1 h2
  omega

theorem sum_if_single (k0 : Nat) (c : Nat) :
    ∀ keys : List Nat, keys.Nodup →
      ((keys.map (fun k => if k0 = k then c else 0)).sum
        = if k0 ∈ keys then c else 0) := by
  intro keys
  induction keys with
  | nil => intro _; simp
  | cons k ks ih =>
    intro hnd
    have hnk : k ∉ ks := (List.nodup_cons.mp hnd).1
    have hnd2 : ks.Nodup := (List.nodup_cons.mp hnd).2
    simp only [List.map_cons, List.sum_cons, ih hnd2, List.mem_cons]
    by_cases hk : k0 = k
    · subst hk
      simp [hnk]
    · simp [hk]

theorem count_filter_key (row : List Nat) (answers : List Nat) (x k : Nat) :
    List.count x (answers.filter (fun a => rowVal row a == k))
      = if rowVal row x = k then List.count x answers else 0 := by
  by_cases h : rowVal row x = k
  · rw [if_pos h]
    exact List.count_filter (by simpa using h)
  · rw [if_neg h]
    rw [List.count_eq_zero]
    intro hmem
    exact h (by simpa using (List.mem_filter.mp hmem).2)

theorem grouped_flatten_count (row : List Nat) (answers keys : List Nat)
    (hk : keys.Nodup) (x : Nat) :
    List.count x
        ((keys.map (fun k => answers.filter (fun a => rowVal row a == k))).flatten)
      = if rowVal row x ∈ keys then List.count x answers else 0 := by
  rw [List.count_flatten, List.map_map]
  have hmap :
      (keys.map (List.count x ∘ fun k => answers.filter (fun a => rowVal row a == k)))
        = keys.map (fun k => if rowVal row x = k then List.count x answers else 0) := by
    apply List.map_congr_left
    intro k _
    exact count_filter_key row answers x k
  rw [hmap, sum_if_single _ _ keys hk]

theorem grouped_flatten_perm (row : List Nat) (answers keys : List Nat)
    (hk : keys.Nodup)
    (hcover : ∀ a ∈ answers, rowVal row a ∈ keys) :
    ((keys.map (fun k => answers.filter (fun a => rowVal row a == k))).flatten).Perm
      answers := by
  rw [List.perm_iff_count]
  intro x
  rw [grouped_flatten_count row answers keys hk x]
  by_cases hx : x ∈ answers
  · rw [if_pos (hcover x hx)]
  · rw [List.count_eq_zero.mpr hx]
    split <;> rfl

theorem disjoint_symmetric :
    Symmetric (fun b c : List Nat => ∀ x ∈ b, x ∉ c) := by
  intro b c h x hxc hxb
  exact h x hxb hxc

/-! Contract of bucket_answers. -/

theorem bucketRow_perm_preBuckets (row : List Nat) (answers : List Nat) :
    (bucketRow row answers).Perm (preBuckets row answers) :=
  List.perm_insertionSort descLen (preBuckets row answers)

theorem bucketRow_nonempty (row : List Nat) (answers : List Nat) :
    ∀ b ∈ bucketRow row answers, b ≠ [] := by
  intro b hb
  have hb2 := (bucketRow_perm_preBuckets row answers).mem_iff.mp hb
  obtain ⟨k, hk, rfl⟩ := List.mem_map.mp hb2
  rw [keysIn_mem] at hk
  obtain ⟨a, ha, hak⟩ := List.mem_map.mp hk
  intro hempty
  have : a ∈ answers.filter (fun a => rowVal row a == k) :=
    List.mem_filter.mpr ⟨ha, by simp [hak]⟩
  rw [hempty] at this
  exact List.not_mem_nil a this

theorem bucketRow_disjoint (row : List Nat) (answers : List Nat) :
    (bucketRow row answers).Pairwise (fun b c => ∀ x ∈ b, x ∉ c) := by
  rw [List.Perm.pairwise_iff (fun hxy => disjoint_symmetric hxy)
    (bucketRow_perm_preBuckets row answers)]
  exact grouped_disjoint row answers _ (keysIn_nodup _)

theorem bucketRow_share (row : List Nat) (answers : List Nat) :
    ∀ b ∈ bucketRow row answers, ∀ x ∈ b, ∀ y ∈ b,
      rowVal row x = rowVal row y := by
  intro b hb
  exact grouped_share row answers _ b
    ((bucketRow_perm_preBuckets row answers).mem_iff.mp hb)

theorem bucketRow_flatten_perm (row : List Nat) (answers : List Nat) :
    (bucketRow row answers).flatten.Perm answers := by
  refine ((bucketRow_perm_preBuckets row answers).flatten).trans ?_
  refine grouped_flatten_perm row answers _ (keysIn_nodup _) ?_
  intro a ha
  rw [keysIn_mem]
  exact List.mem_map.mpr ⟨a, ha, rfl⟩

theorem bucketRow_sizes (row : List Nat) (answers : List Nat) :
    ((bucketRow row answers).map List.length).sum = answers.length := by
  rw [← List.length_flatten]
  exact (bucketRow_flatten_perm row answers).length_eq

theorem bucketRow_sorted (row : List Nat) (answers : List Nat) :
    (bucketRow row answers).Sorted descLen :=
  List.sorted_insertionSort descLen (preBuckets row answers)

/-! Contract of bucket_answers3: the same grouping over the full fixed key
range `0 .. MAX_BUCKET`, so empty buckets are part of the result. -/

theorem bucketRow3_perm_pre3 (row : List Nat) (answers : List Nat) :
    (bucketRow3 row answers).Perm (pre3Buckets row answers) :=
  List.perm_insertionSort descLen (pre3Buckets row answers)

theorem bucketRow3_length (row : List Nat) (answers : List Nat) :
    (bucketRow3 row answers).length = MAX_BUCKET := by
  rw [(bucketRow3_perm_pre3 row answers).length_eq]
  simp [pre3Buckets]

theorem bucketRow3_disjoint (row : List Nat) (answers : List Nat) :
    (bucketRow3 row answers).Pairwise (fun b c => ∀ x ∈ b, x ∉ c) := by
  rw [List.Perm.pairwise_iff (fun hxy => disjoint_symmetric hxy)
    (bucketRow3_perm_pre3 row answers)]
  exact grouped_disjoint row answers _ (List.nodup_range _)

theorem bucketRow3_share (row : List Nat) (answers : List Nat) :
    ∀ b ∈ bucketRow3 row answers, ∀ x ∈ b, ∀ y ∈ b,
      rowVal row x = rowVal row y := by
  intro b hb
  exact grouped_share row answers _ b
    ((bucketRow3_perm_pre3 row answers).mem_iff.mp hb)

theorem bucketRow3_flatten_perm (row : List Nat) (answers : List Nat)
    (hcode : ∀ a ∈ answers, rowVal row a < MAX_BUCKET) :
    (bucketRow3 row answers).flatten.Perm answers := by
  refine ((bucketRow3_perm_pre3 row answers).flatten).trans ?_
  refine grouped_flatten_perm row answers _ (List.nodup_range _) ?_
  intro a ha
  rw [List.mem_range]
  exact hcode a ha

theorem bucketRow3_sorted (row : List Nat) (answers : List Nat) :
    (bucketRow3 row answers).Sorted descLen :=
  List.sorted_insertionSort descLen (pre3Buckets row answers)

/-- Tiny concrete Scorer used for counterexamples: one guess, one answer,
cached score 0. -/
def scorerOne : Scorer :=
  { guesses := [[0, 0, 0, 0, 0]],
    answers := [[0, 0, 0, 0, 0]],
    score_cache := [[0]] }

set_option maxRecDepth 4000 in
/-- Counterexample to C3 as stated: bucket_answers3 keeps all MAX_BUCKET
buckets, so its result contains empty buckets — here, bucketing the single
candidate 0 yields 242 empty buckets alongside the singleton bucket. -/
theorem bucket_answers3_has_empty_bucket :
    ¬ (∀ b ∈ bucketAnswers3 scorerOne 0 [0], b ≠ []) := by
  decide

/-- C3, amended: bucket_answers satisfies the full contract (non-empty,
pairwise disjoint, grouped by cached score, union exactly the candidate set,
sizes summing to the candidate count, descending size order); bucket_answers3
satisfies the same contract except non-emptiness — it returns the fixed table
of MAX_BUCKET buckets, empty ones included (its caller skips them). -/
theorem bucket_answers_partition (s : Scorer) (guess : Nat) (answers : List Nat)
    (hnd : answers.Nodup)
    (hcode : ∀ a ∈ answers, cacheAt s guess a < MAX_BUCKET) :
    (∀ b ∈ bucketAnswers s guess answers, b ≠ [])
    ∧ (bucketAnswers s guess answers).Pairwise (fun b c => ∀ x ∈ b, x ∉ c)
    ∧ (∀ b ∈ bucketAnswers s guess answers, ∀ x ∈ b, ∀ y ∈ b,
        cacheAt s guess x = cacheAt s guess y)
    ∧ (bucketAnswers s guess answers).flatten.Perm answers
    ∧ ((bucketAnswers s guess answers).map List.length).sum = answers.length
    ∧ (bucketAnswers s guess answers).Sorted descLen
    ∧ (bucketAnswers3 s guess answers).length = MAX_BUCKET
    ∧ (bucketAnswers3 s guess answers).Pairwise (fun b c => ∀ x ∈ b, x ∉ c)
    ∧ (∀ b ∈ bucketAnswers3 s guess answers, ∀ x ∈ b, ∀ y ∈ b,
        cacheAt s guess x = cacheAt s guess y)
    ∧ (bucketAnswers3 s guess answers).flatten.Perm answers
    ∧ (bucketAnswers3 s guess answers).Sorted descLen := by
  have _ := hnd
  refine ⟨bucketRow_nonempty _ _, bucketRow_disjoint _ _, ?_,
    bucketRow_flatten_perm _ _, bucketRow_sizes _ _, bucketRow_sorted _ _,
    bucketRow3_length _ _, bucketRow3_disjoint _ _, ?_,
    bucketRow3_flatten_perm _ _ hcode, bucketRow3_sorted _ _⟩
  · exact bucketRow_share (rowAt s guess) answers
  · exact bucketRow3_share (rowAt s guess) answers

/-- Witness for the amended C3 on a concrete Scorer and candidate list. -/
theorem bucket_answers_partition_witness :
    (bucketAnswers scorerOne 0 [0]).flatten.Perm [0]
    ∧ (bucketAnswers3 scorerOne 0 [0]).length = MAX_BUCKET :=
  ⟨(bucket_answers_partition scorerOne 0 [0] (by decide) (by decide)).2.2.2.1,
    (bucket_answers_partition scorerOne 0 [0] (by decide) (by decide)).2.2.2.2.2.2.1⟩

/-! optimise_guess_order: rank guesses by the size of their largest bucket
over the whole answer set, sort ascending, and permute the cache rows in
lockstep. -/

/-- Order used by the worst-case sort. The source sorts tuples
`(largest_bucket_size, original_index, guess_string)`; the original indices
are pairwise distinct, so the string component never decides a comparison and
the order is fully captured by the first two components. -/
def rLex : (Nat × Nat) → (Nat × Nat) → Prop :=
  fun p q => p.1 < q.1 ∨ (p.1 = q.1 ∧ p.2 ≤ q.2)

instance : DecidableRel rLex := fun p q =>
  inferInstanceAs (Decidable (p.1 < q.1 ∨ (p.1 = q.1 ∧ p.2 ≤ q.2)))

instance : IsTotal (Nat × Nat) rLex :=
  ⟨by intro p q; unfold rLex; omega⟩

instance : IsTrans (Nat × Nat) rLex :=
  ⟨by intro p q r; unfold rLex; omega⟩

/-- Worst case of a guess: the size of its largest bucket over the entire
answer set (`buckets.iter().map(|v| v.len()).max().unwrap()`). The `unwrap`
can only panic when the answer pool is empty; claim theorems that rely on the
max being attained assume a non-empty pool. -/
def worstCase (s : Scorer) (g : Nat) : Nat :=
  ((bucketAnswers s g (List.range s.answers.length)).map List.length).foldr Nat.max 0

/-- Sorted `(worst_case, original_index)` list driving the re-ranking. -/
def optimiseOrder (s : Scorer) : List (Nat × Nat) :=
  List.insertionSort rLex
    ((List.range s.guesses.length).map (fun i => (worstCase s i, i)))

/-- optimise_guess_order from the source: guesses and cache rows re-read off
the sorted worst-case list, in lockstep. -/
def optimise (s : Scorer) : Scorer :=
  { guesses := (optimiseOrder s).map (fun p => s.guesses.getD p.2 []),
    answers := s.answers,
    score_cache := (optimiseOrder s).map (fun p => s.score_cache.getD p.2 []) }

theorem getD_of_lt {α : Type} (l : List α) (n : Nat) (d : α) (h : n < l.length) :
    l.getD n d = l[n] := by
  simp [List.getD_eq_getElem?_getD, List.getElem?_eq_getElem h]

theorem optimiseOrder_perm (s : Scorer) :
    (optimiseOrder s).Perm
      ((List.range s.guesses.length).map (fun i => (worstCase s i, i))) :=
  List.perm_insertionSort rLex _

theorem optimiseOrder_length (s : Scorer) :
    (optimiseOrder s).length = s.guesses.length := by
  rw [(optimiseOrder_perm s).length_eq]
  simp

theorem optimiseOrder_mem (s : Scorer) :
    ∀ p ∈ optimiseOrder s, p.1 = worstCase s p.2 ∧ p.2 < s.guesses.length := by
  intro p hp
  have hp2 := (optimiseOrder_perm s).mem_iff.mp hp
  obtain ⟨i, hi, rfl⟩ := List.mem_map.mp hp2
  exact ⟨rfl, List.mem_range.mp hi⟩

/-- C6: after optimise_guess_order, the `(worst_case, original_index)` list is
sorted ascending by worst case with ties broken by original index, it is a
permutation of the original enumeration, worst cases are genuine (computed on
the full answer set), guesses and cache rows are read off that one list in
lockstep, and consequently the cache invariant
`score_cache[g][a] = score_wordle(guesses[g], answers[a])` survives the
permutation. -/
theorem optimise_guess_order_spec (s : Scorer)
    (hcons : ∀ g, g < s.guesses.length → ∀ a, a < s.answers.length →
      scoreWordle (s.guesses.getD g []) (s.answers.getD a [])
        = some (cacheAt s g a)) :
    (optimiseOrder s).Sorted rLex
    ∧ (optimiseOrder s).Perm
        ((List.range s.guesses.length).map (fun i => (worstCase s i, i)))
    ∧ (∀ p ∈ optimiseOrder s, p.1 = worstCase s p.2 ∧ p.2 < s.guesses.length)
    ∧ (optimise s).guesses = (optimiseOrder s).map (fun p => s.guesses.getD p.2 [])
    ∧ (optimise s).score_cache
        = (optimiseOrder s).map (fun p => s.score_cache.getD p.2 [])
    ∧ (∀ g, g < (optimise s).guesses.length → ∀ a, a < s.answers.length →
        scoreWordle ((optimise s).guesses.getD g []) ((optimise s).answers.getD a [])
          = some (cacheAt (optimise s) g a)) := by
  refine ⟨List.sorted_insertionSort rLex _, optimiseOrder_perm s,
    optimiseOrder_mem s, rfl, rfl, ?_⟩
  intro g hg a ha
  have hlen : (optimise s).guesses.length = (optimiseOrder s).length := by
    simp [optimise]
  rw [hlen] at hg
  have hmem : (optimiseOrder s)[g] ∈ optimiseOrder s := List.getElem_mem _
  have hidx := (optimiseOrder_mem s _ hmem).2
  have hguess : (optimise s).guesses.getD g []
      = s.guesses.getD ((optimiseOrder s)[g]).2 [] := by
    show ((optimiseOrder s).map (fun p => s.guesses.getD p.2 [])).getD g []
      = s.guesses.getD ((optimiseOrder s)[g]).2 []
    rw [getD_of_lt _ g [] (by simpa using hg)]
    simp
  have hrow : rowAt (optimise s) g = rowAt s ((optimiseOrder s)[g]).2 := by
    show ((optimiseOrder s).map (fun p => s.score_cache.getD p.2 [])).getD g []
      = s.score_cache.getD ((optimiseOrder s)[g]).2 []
    rw [getD_of_lt _ g [] (by simpa using hg)]
    simp
  have hcache : cacheAt (optimise s) g a = cacheAt s ((optimiseOrder s)[g]).2 a := by
    rw [cacheAt, cacheAt, hrow]
  rw [hguess, hcache]
  show scoreWordle (s.guesses.getD ((optimiseOrder s)[g]).2 []) (s.answers.getD a [])
    = some (cacheAt s ((optimiseOrder s)[g]).2 a)
  exact hcons _ hidx a ha

/-- Concrete consistent Scorer for witnesses: one guess "aaaaa", one answer
"aaaaa", cached score 121 = encode_score([Correct; 5]). -/
def scorerSelf : Scorer :=
  { guesses := [[97, 97, 97, 97, 97]],
    answers := [[97, 97, 97, 97, 97]],
    score_cache := [[121]] }

/-- Witness for C6 on `scorerSelf`. -/
theorem optimise_guess_order_spec_witness :
    (optimiseOrder scorerSelf).Sorted rLex
    ∧ (∀ g, g < (optimise scorerSelf).guesses.length →
        ∀ a, a < scorerSelf.answers.length →
        scoreWordle ((optimise scorerSelf).guesses.getD g [])
            ((optimise scorerSelf).answers.getD a [])
          = some (cacheAt (optimise scorerSelf) g a)) :=
  ⟨(optimise_guess_order_spec scorerSelf (by decide)).1,
    (optimise_guess_order_spec scorerSelf (by decide)).2.2.2.2.2⟩

/-! The depth-limited search. The process globals `SEEN_TABLE` (MAX_BUCKET
bytes) and `COUNTER` (a `u8`) are threaded as an explicit state value; a
`u8` entry or counter value is a `Nat` in `0 .. 256`. Panics (the
`num_guesses - 1` underflow at budget 0 and the noisy helper's assert) are
`none`. -/

structure S2State where
  table : List Nat
  counter : Nat
deriving DecidableEq

/-- Initial process state: `SEEN_TABLE` all zero, `COUNTER = 0`. -/
def initS2 : S2State := ⟨List.replicate MAX_BUCKET 0, 0⟩

/-- Marking loop of can_solve_with_guess2: walk the answers, early-out when a
score's table entry already holds the current counter, otherwise stamp it. -/
def markAnswers (row : List Nat) (counter : Nat) :
    List Nat → List Nat → Bool × List Nat
  | [], t => (true, t)
  | a :: rest, t =>
    let sc := rowVal row a
    if t.getD sc 0 = counter then (false, t)
    else markAnswers row counter rest (t.set sc counter)

/-- can_solve_with_guess2 from the source: on counter wraparound
(`COUNTER == u8::MAX`) reset the counter to 0 and fill the table with 255,
otherwise bump the counter; then run the marking loop. -/
def canSolveWithGuess2 (s : Scorer) (guess : Nat) (answers : List Nat)
    (st : S2State) : Bool × S2State :=
  let st1 : S2State :=
    if st.counter = 255 then ⟨List.replicate MAX_BUCKET 255, 0⟩
    else ⟨st.table, st.counter + 1⟩
  let r := markAnswers (rowAt s guess) st1.counter answers st1.table
  (r.1, ⟨r.2, st1.counter⟩)

def canSolve2Go (s : Scorer) (answers : List Nat) :
    List Nat → S2State → Bool × S2State
  | [], st => (false, st)
  | g :: gs, st =>
    let r := canSolveWithGuess2 s g answers st
    if r.1 then (true, r.2) else canSolve2Go s answers gs r.2

/-- can_solve2 from the source: `(0..guesses.len()).any(can_solve_with_guess2)`,
short-circuiting; the scratch state threads through the calls. -/
def canSolve2 (s : Scorer) (answers : List Nat) (st : S2State) : Bool × S2State :=
  canSolve2Go s answers (List.range s.guesses.length) st

def allBuckets2 (s : Scorer) : List (List Nat) → S2State → Bool × S2State
  | [], st => (true, st)
  | b :: bs, st =>
    if b.isEmpty then allBuckets2 s bs st
    else
      let r := canSolve2 s b st
      if r.1 then allBuckets2 s bs r.2 else (false, r.2)

def canSolve3Go (s : Scorer) (answers : List Nat) :
    List Nat → S2State → Bool × S2State
  | [], st => (false, st)
  | g :: gs, st =>
    let r := allBuckets2 s (bucketAnswers3 s g answers) st
    if r.1 then (true, r.2) else canSolve3Go s answers gs r.2

/-- can_solve3 from the source: some guess's bucket_answers3 buckets are each
empty or solvable in two guesses. -/
def canSolve3 (s : Scorer) (answers : List Nat) (st : S2State) : Bool × S2State :=
  canSolve3Go s answers (List.range s.guesses.length) st

/-- Bucket loop of the general can_solve case: `buckets.iter().all(...)`,
short-circuiting on the first insoluble bucket; `none` (a panic in the leaf
call) aborts everything. -/
def solveAllBuckets (f : S2State → List Nat → Option (Bool × S2State)) :
    S2State → List (List Nat) → Option (Bool × S2State)
  | st, [] => some (true, st)
  | st, b :: bs =>
    match f st b with
    | none => none
    | some (false, st2) => some (false, st2)
    | some (true, st2) => solveAllBuckets f st2 bs

/-- Guess loop of the general can_solve case: first guess whose buckets all
recurse successfully wins; otherwise continue with the state left behind. -/
def solveGuessLoop (s : Scorer) (f : S2State → List Nat → Option (Bool × S2State))
    (answers : List Nat) : List Nat → S2State → Option (Bool × S2State)
  | [], st => some (false, st)
  | g :: gs, st =>
    match solveAllBuckets f st (bucketAnswers s g answers) with
    | none => none
    | some (true, st2) => some (true, st2)
    | some (false, st2) => solveGuessLoop s f answers gs st2

/-- can_solve from the source. Budgets 3 and 2 dispatch to the specialised
solvers; any other budget runs the general guess loop, recursing with budget
`num_guesses - 1`. At budget 0 that subtraction underflows (a panic in a
debug build), so the leaf there is `none` whenever a bucket exists. -/
def canSolve (s : Scorer) : Nat → S2State → List Nat → Option (Bool × S2State)
  | 0, st, answers =>
    solveGuessLoop s (fun _ _ => none) answers (List.range s.guesses.length) st
  | 1, st, answers =>
    solveGuessLoop s (fun st2 b => canSolve s 0 st2 b) answers
      (List.range s.guesses.length) st
  | 2, st, answers => some (canSolve2 s answers st)
  | 3, st, answers => some (canSolve3 s answers st)
  | n + 4, st, answers =>
    solveGuessLoop s (fun st2 b => canSolve s (n + 3) st2 b) answers
      (List.range s.guesses.length) st

/-- Bucket loop of can_solve_with_guess_noisy: per bucket, first
`assert_eq!(num_guesses - 1, 3)` (underflow panic at 0, assert failure when
the budget is not 4), then recurse at budget `num_guesses - 1`, failing fast
on an insoluble bucket. -/
def noisyBuckets (s : Scorer) (numGuesses : Nat) :
    List (List Nat) → S2State → Option (Bool × S2State)
  | [], st => some (true, st)
  | b :: bs, st =>
    if numGuesses = 0 then none
    else if numGuesses - 1 ≠ 3 then none
    else
      match canSolve s (numGuesses - 1) st b with
      | none => none
      | some (false, st2) => some (false, st2)
      | some (true, st2) => noisyBuckets s numGuesses bs st2

/-- can_solve_with_guess_noisy from the source. -/
def noisyHelper (s : Scorer) (guess numGuesses : Nat) (answers : List Nat)
    (st : S2State) : Option (Bool × S2State) :=
  noisyBuckets s numGuesses (bucketAnswers s guess answers) st

/-- Guess loop of can_solve_noisy: indices `0 .. 10` regardless of pool size;
`s.guesses[idx]` is printed first, so an index beyond the pool panics. -/
def noisyGo (s : Scorer) (numGuesses : Nat) (answers : List Nat) :
    List Nat → S2State → Option (Bool × S2State)
  | [], st => some (false, st)
  | idx :: idxs, st =>
    if idx < s.guesses.length then
      match noisyHelper s idx numGuesses answers st with
      | none => none
      | some (true, st2) => some (true, st2)
      | some (false, st2) => noisyGo s numGuesses answers idxs st2
    else none

/-- can_solve_noisy from the source: try only the first 10 guesses. -/
def canSolveNoisy (s : Scorer) (numGuesses : Nat) (st : S2State)
    (answers : List Nat) : Option (Bool × S2State) :=
  noisyGo s numGuesses answers (List.range 10) st

/-! Sequential runs of the N == 2 solver, used to exercise the scratch-table
generation counter across its wraparound. -/

/-- A sequence of `n` can_solve2 invocations (the `num_guesses == 2` path of
can_solve) on the candidate set `[0]`, threading the scratch state; the
boolean result of each invocation is read (as any caller would) and the run
continues either way. -/
def warmRun (s : Scorer) : Nat → S2State → S2State
  | 0, st => st
  | n + 1, st =>
    match canSolve2 s [0] st with
    | (true, st2) => warmRun s n st2
    | (false, st2) => warmRun s n st2

/-- Scorer with one guess and two answers, cache row `[0, 1]` (consistent
with guess "aaaaa" against answers "bbbbb" and "bbbba"). -/
def scorerStale : Scorer :=
  { guesses := [[97, 97, 97, 97, 97]],
    answers := [[98, 98, 98, 98, 98], [98, 98, 98, 98, 97]],
    score_cache := [[0, 1]] }

set_option maxRecDepth 100000 in
set_option maxHeartbeats 2000000 in
/-- C2 fails on the code: the wraparound reset fills SEEN_TABLE with 255, and
255 is itself a value the counter reaches again 255 bumps later, so a call
running at counter 255 can observe stale fill markings. Concretely: after 510
can_solve2 calls on the singleton `{answer 0}` (score 0), the 511th call, on
the singleton `{answer 1}` (score 1), runs at counter 255 and reads the stale
255 left in entry 1 by the fill 255 calls earlier — it returns false although
the score map on a one-element candidate set is trivially injective, where
the claim (and the source comment "Set counter to a value not seen in the
array") requires true. -/
theorem can_solve2_stale_marking :
    (([1] : List Nat).map (cacheAt scorerStale 0)).Nodup
    ∧ (canSolve2 scorerStale [1] (warmRun scorerStale 510 initS2)).1 = false :=
  ⟨by decide, by decide⟩

/-! Budget N == 1: the source has no such terminal case; the general loop
recurses into budget 0, where computing `num_guesses - 1` underflows. -/

theorem bucketAnswers_nil (s : Scorer) (g : Nat) : bucketAnswers s g [] = [] :=
  rfl

theorem bucketAnswers_ne_nil (s : Scorer) (g : Nat) (answers : List Nat)
    (h : answers ≠ []) : bucketAnswers s g answers ≠ [] := by
  obtain ⟨a, as, rfl⟩ := List.exists_cons_of_ne_nil h
  have hmem : rowVal (rowAt s g) a ∈ keysIn ((a :: as).map (rowVal (rowAt s g))) := by
    rw [keysIn_mem]
    exact List.mem_map.mpr ⟨a, List.mem_cons_self _ _, rfl⟩
  have hlen : 0 < (bucketAnswers s g (a :: as)).length := by
    rw [show bucketAnswers s g (a :: as) = bucketRow (rowAt s g) (a :: as) from rfl,
      (bucketRow_perm_preBuckets _ _).length_eq]
    rw [preBuckets, List.length_map]
    exact List.length_pos.mpr (List.ne_nil_of_mem hmem)
  exact List.ne_nil_of_length_pos hlen

theorem canSolve_zero_nonempty (s : Scorer) (st : S2State) (b : List Nat)
    (hb : b ≠ []) (hg : 0 < s.guesses.length) :
    canSolve s 0 st b = none := by
  obtain ⟨m, hm⟩ : ∃ m, s.guesses.length = m + 1 :=
    ⟨s.guesses.length - 1, by omega⟩
  have hrange : List.range s.guesses.length
      = 0 :: (List.range m).map Nat.succ := by
    rw [hm, List.range_succ_eq_map]
  obtain ⟨b2, bs2, hbk⟩ :=
    List.exists_cons_of_ne_nil (bucketAnswers_ne_nil s 0 b hb)
  simp only [canSolve, hrange, solveGuessLoop, hbk, solveAllBuckets]

/-- Counterexample to C4 as stated: at budget 1 with the singleton candidate
set {0}, can_solve does not return "solvable" — it recurses into budget 0
and dies on the `num_guesses - 1` underflow (modelled as `none`). -/
theorem can_solve_budget_one_panics :
    canSolve scorerOne 1 initS2 [0] = none := by decide

/-- C4, amended: the source can_solve has no N == 1 terminal case. Invoked
with budget 1 against a non-empty guess pool it aborts (budget-0 underflow
panic) for every non-empty candidate set, and returns solvable for the empty
candidate set; the `|CandidateSet| == 1` test is never performed. -/
theorem can_solve_budget_one (s : Scorer) (st : S2State) (answers : List Nat)
    (hg : 0 < s.guesses.length) :
    (answers = [] → canSolve s 1 st answers = some (true, st))
    ∧ (answers ≠ [] → canSolve s 1 st answers = none) := by
  obtain ⟨m, hm⟩ : ∃ m, s.guesses.length = m + 1 :=
    ⟨s.guesses.length - 1, by omega⟩
  have hrange : List.range s.guesses.length
      = 0 :: (List.range m).map Nat.succ := by
    rw [hm, List.range_succ_eq_map]
  constructor
  · rintro rfl
    simp only [canSolve, hrange, solveGuessLoop, bucketAnswers_nil,
      solveAllBuckets]
  · intro hne
    obtain ⟨b, bs, hbk⟩ :=
      List.exists_cons_of_ne_nil (bucketAnswers_ne_nil s 0 answers hne)
    have hbne : b ≠ [] := by
      apply bucketRow_nonempty (rowAt s 0) answers
      rw [show bucketRow (rowAt s 0) answers = bucketAnswers s 0 answers from rfl,
        hbk]
      exact List.mem_cons_self _ _
    have hunfold : canSolve s 1 st answers
        = solveGuessLoop s (fun st2 b => canSolve s 0 st2 b) answers
            (List.range s.guesses.length) st := rfl
    rw [hunfold, hrange]
    simp only [solveGuessLoop, hbk, solveAllBuckets,
      canSolve_zero_nonempty s st b hbne hg]

/-- Witness for the amended C4 on the one-guess Scorer. -/
theorem can_solve_budget_one_witness :
    canSolve scorerOne 1 initS2 [] = some (true, initS2)
    ∧ canSolve scorerOne 1 initS2 [0, 1] = none :=
  ⟨(can_solve_budget_one scorerOne initS2 [] (by decide)).1 rfl,
    (can_solve_budget_one scorerOne initS2 [0, 1] (by decide)).2 (by decide)⟩

/-! Re-ranking and the scratch state: a counterexample to C5 as stated. -/

/-- Scorer with two guesses and six answers. Under guess 0 the answers score
`[10, 20, 21, 10, 10, 10]` (worst bucket 4); under guess 1 they score
`[30, 40, 40, 41, 42, 43]` (worst bucket 2), so optimise_guess_order swaps
the two guesses. -/
def scorerPerm : Scorer :=
  { guesses := [[103, 103, 103, 103, 103], [104, 104, 104, 104, 104]],
    answers := [[0, 0, 0, 0, 0], [1, 1, 1, 1, 1], [2, 2, 2, 2, 2],
                [3, 3, 3, 3, 3], [4, 4, 4, 4, 4], [5, 5, 5, 5, 5]],
    score_cache := [[10, 20, 21, 10, 10, 10], [30, 40, 40, 41, 42, 43]] }

/-- The re-ranked pool: guesses swapped, cache rows swapped in lockstep. -/
def scorerPermOpt : Scorer :=
  { guesses := [[104, 104, 104, 104, 104], [103, 103, 103, 103, 103]],
    answers := [[0, 0, 0, 0, 0], [1, 1, 1, 1, 1], [2, 2, 2, 2, 2],
                [3, 3, 3, 3, 3], [4, 4, 4, 4, 4], [5, 5, 5, 5, 5]],
    score_cache := [[30, 40, 40, 41, 42, 43], [10, 20, 21, 10, 10, 10]] }

set_option maxRecDepth 100000 in
set_option maxHeartbeats 4000000 in
/-- Counterexample to C5 as stated: can_solve's result is entangled with the
scratch-table state, and re-ranking changes which table entries the run
stamps, so after the same 510 preceding can_solve2 invocations (budget-2
can_solve calls on `{0}`) the call `can_solve(2, {1, 2})` returns false on
the original pool but true on the optimise_guess_order pool: both pools
suffer a stale-marking false negative at counter 255, but only the original
pool runs out of guesses before the wraparound reset clears it. -/
theorem can_solve_changes_under_reranking :
    optimise scorerPerm = scorerPermOpt
    ∧ (canSolve scorerPerm 2 (warmRun scorerPerm 510 initS2) [1, 2]).map
        Prod.fst = some false
    ∧ (canSolve scorerPermOpt 2 (warmRun scorerPermOpt 510 initS2) [1, 2]).map
        Prod.fst = some true :=
  ⟨by decide, by decide, by decide⟩

/-! The state-correct search semantics. `canSolvePureRows` is can_solve with
the N == 2 scratch-table check replaced by its intended meaning — some
guess's cached score map is injective on the candidate list — which is what
can_solve_with_guess2 computes whenever the generation counter is fresh. The
guess loops range over the list of cache rows the source indexes by
`0..guesses.len()`. -/

/-- Cache rows as the source's guess loops see them: row `g` of the cache for
each `g` in `0 .. guesses.len()`. -/
def rowsUsed (s : Scorer) : List (List Nat) :=
  (List.range s.guesses.length).map (rowAt s)

/-- Modelled from the spec: the intended N == 2 check for one guess row — no
two candidates share a cached score. -/
def injOnRow (row : List Nat) (answers : List Nat) : Bool :=
  decide ((answers.map (rowVal row)).Nodup)

/-- Modelled from the spec: can_solve2 with the fresh-state semantics. -/
def pureCanSolve2 (rows : List (List Nat)) (answers : List Nat) : Bool :=
  rows.any (fun row => injOnRow row answers)

/-- Modelled from the spec: can_solve3 over pure bucket data. -/
def pureCanSolve3 (rows : List (List Nat)) (answers : List Nat) : Bool :=
  rows.any (fun row =>
    (bucketRow3 row answers).all (fun b => b.isEmpty || pureCanSolve2 rows b))

def pureAllBuckets (f : List Nat → Option Bool) : List (List Nat) → Option Bool
  | [] => some true
  | b :: bs =>
    match f b with
    | none => none
    | some false => some false
    | some true => pureAllBuckets f bs

def pureGuessLoop (f : List Nat → Option Bool) (answers : List Nat) :
    List (List Nat) → Option Bool
  | [] => some false
  | row :: rows =>
    match pureAllBuckets f (bucketRow row answers) with
    | none => none
    | some true => some true
    | some false => pureGuessLoop f answers rows

/-- Modelled from the spec: can_solve with the state-correct N == 2 check;
panics (budget-0 underflow) remain `none`. -/
def canSolvePureRows (rows : List (List Nat)) : Nat → List Nat → Option Bool
  | 0, answers => pureGuessLoop (fun _ => none) answers rows
  | 1, answers => pureGuessLoop (fun b => canSolvePureRows rows 0 b) answers rows
  | 2, answers => some (pureCanSolve2 rows answers)
  | 3, answers => some (pureCanSolve3 rows answers)
  | n + 4, answers =>
    pureGuessLoop (fun b => canSolvePureRows rows (n + 3) b) answers rows

theorem perm_any {α : Type} {l1 l2 : List α} (h : l1.Perm l2) (f : α → Bool) :
    l1.any f = l2.any f := by
  have hiff : (l1.any f = true) ↔ (l2.any f = true) := by
    simp only [List.any_eq_true]
    constructor
    · rintro ⟨x, hx, hfx⟩; exact ⟨x, h.mem_iff.mp hx, hfx⟩
    · rintro ⟨x, hx, hfx⟩; exact ⟨x, h.mem_iff.mpr hx, hfx⟩
  cases h1 : l1.any f <;> cases h2 : l2.any f <;> simp_all

theorem any_congr {α : Type} {l : List α} {f g : α → Bool}
    (h : ∀ x ∈ l, f x = g x) : l.any f = l.any g := by
  induction l with
  | nil => rfl
  | cons x xs ih =>
    simp only [List.any_cons]
    rw [h x (List.mem_cons_self _ _), ih (fun y hy => h y (List.mem_cons_of_mem _ hy))]

theorem all_congr {α : Type} {l : List α} {f g : α → Bool}
    (h : ∀ x ∈ l, f x = g x) : l.all f = l.all g := by
  induction l with
  | nil => rfl
  | cons x xs ih =>
    simp only [List.all_cons]
    rw [h x (List.mem_cons_self _ _), ih (fun y hy => h y (List.mem_cons_of_mem _ hy))]

theorem bucketRow_nil (row : List Nat) : bucketRow row [] = [] := rfl

theorem bucketRow_ne_nil (row : List Nat) (answers : List Nat)
    (h : answers ≠ []) : bucketRow row answers ≠ [] := by
  obtain ⟨a, as, rfl⟩ := List.exists_cons_of_ne_nil h
  have hmem : rowVal row a ∈ keysIn ((a :: as).map (rowVal row)) := by
    rw [keysIn_mem]
    exact List.mem_map.mpr ⟨a, List.mem_cons_self _ _, rfl⟩
  have hlen : 0 < (bucketRow row (a :: as)).length := by
    rw [(bucketRow_perm_preBuckets _ _).length_eq, preBuckets, List.length_map]
    exact List.length_pos.mpr (List.ne_nil_of_mem hmem)
  exact List.ne_nil_of_length_pos hlen

theorem canSolvePureRows_zero (rows : List (List Nat)) (answers : List Nat) :
    canSolvePureRows rows 0 answers
      = if rows = [] then some false
        else if answers = [] then some true else none := by
  cases rows with
  | nil => rfl
  | cons row rest =>
    cases answers with
    | nil =>
      simp only [canSolvePureRows, pureGuessLoop, bucketRow_nil, pureAllBuckets]
      simp
    | cons a as =>
      obtain ⟨b, bs, hbk⟩ :=
        List.exists_cons_of_ne_nil (bucketRow_ne_nil row (a :: as) (by simp))
      simp only [canSolvePureRows, pureGuessLoop, hbk, pureAllBuckets]
      simp

theorem canSolvePureRows_one (rows : List (List Nat)) (answers : List Nat) :
    canSolvePureRows rows 1 answers
      = if rows = [] then some false
        else if answers = [] then some true else none := by
  cases rows with
  | nil => rfl
  | cons row rest =>
    cases answers with
    | nil =>
      simp only [canSolvePureRows, pureGuessLoop, bucketRow_nil, pureAllBuckets]
      simp
    | cons a as =>
      obtain ⟨b, bs, hbk⟩ :=
        List.exists_cons_of_ne_nil (bucketRow_ne_nil row (a :: as) (by simp))
      have hbne : b ≠ [] := by
        apply bucketRow_nonempty row (a :: as)
        rw [hbk]; exact List.mem_cons_self _ _
      have hleaf : canSolvePureRows (row :: rest) 0 b = none := by
        rw [canSolvePureRows_zero]
        simp [hbne]
      rw [show canSolvePureRows (row :: rest) 1 (a :: as)
          = pureGuessLoop (fun b => canSolvePureRows (row :: rest) 0 b)
              (a :: as) (row :: rest) from rfl]
      simp only [pureGuessLoop, hbk, pureAllBuckets, hleaf]
      simp

theorem pureAllBuckets_eq_all (f : List Nat → Option Bool)
    (hf : ∀ b, (f b).isSome) :
    ∀ bs : List (List Nat),
      pureAllBuckets f bs = some (bs.all (fun b => (f b).getD false)) := by
  intro bs
  induction bs with
  | nil => rfl
  | cons b rest ih =>
    obtain ⟨v, hv⟩ := Option.isSome_iff_exists.mp (hf b)
    cases v with
    | true => simp [pureAllBuckets, hv, ih]
    | false => simp [pureAllBuckets, hv]

theorem pureGuessLoop_eq_any (f : List Nat → Option Bool)
    (hf : ∀ b, (f b).isSome) (answers : List Nat) :
    ∀ rows : List (List Nat),
      pureGuessLoop f answers rows
        = some (rows.any (fun row =>
            (bucketRow row answers).all (fun b => (f b).getD false))) := by
  intro rows
  induction rows with
  | nil => rfl
  | cons row rest ih =>
    rw [pureGuessLoop, pureAllBuckets_eq_all f hf]
    cases hall : (bucketRow row answers).all (fun b => (f b).getD false) with
    | true => simp [hall]
    | false => simp [hall, ih]

theorem canSolvePureRows_isSome (rows : List (List Nat)) :
    ∀ m : Nat, 2 ≤ m → ∀ answers : List Nat,
      (canSolvePureRows rows m answers).isSome := by
  intro m
  induction m using Nat.strong_induction_on with
  | _ m ih =>
    match m with
    | 0 => omega
    | 1 => omega
    | 2 => intro _ answers; simp [canSolvePureRows]
    | 3 => intro _ answers; simp [canSolvePureRows]
    | n + 4 =>
      intro _ answers
      have hleaf : ∀ b, (canSolvePureRows rows (n + 3) b).isSome :=
        fun b => ih (n + 3) (by omega) (by omega) b
      rw [show canSolvePureRows rows (n + 4) answers
          = pureGuessLoop (fun b => canSolvePureRows rows (n + 3) b) answers rows
          from rfl]
      rw [pureGuessLoop_eq_any _ hleaf]
      simp

theorem canSolvePureRows_perm {rows1 rows2 : List (List Nat)}
    (hperm : rows1.Perm rows2) :
    ∀ (n : Nat) (answers : List Nat),
      canSolvePureRows rows1 n answers = canSolvePureRows rows2 n answers := by
  intro n
  induction n using Nat.strong_induction_on with
  | _ n ih =>
    match n with
    | 0 =>
      intro answers
      rw [canSolvePureRows_zero, canSolvePureRows_zero]
      rcases rows1 with _ | ⟨r, rs⟩
      · rw [hperm.nil_eq]
      · have : rows2 ≠ [] := by
          intro h2; rw [h2] at hperm
          exact absurd hperm.symm.nil_eq (by simp)
        simp [this]
    | 1 =>
      intro answers
      rw [canSolvePureRows_one, canSolvePureRows_one]
      rcases rows1 with _ | ⟨r, rs⟩
      · rw [hperm.nil_eq]
      · have : rows2 ≠ [] := by
          intro h2; rw [h2] at hperm
          exact absurd hperm.symm.nil_eq (by simp)
        simp [this]
    | 2 =>
      intro answers
      show some (pureCanSolve2 rows1 answers) = some (pureCanSolve2 rows2 answers)
      rw [pureCanSolve2, pureCanSolve2, perm_any hperm]
    | 3 =>
      intro answers
      show some (pureCanSolve3 rows1 answers) = some (pureCanSolve3 rows2 answers)
      rw [pureCanSolve3, pureCanSolve3]
      have hpoint : ∀ row,
          ((bucketRow3 row answers).all
              (fun b => b.isEmpty || pureCanSolve2 rows1 b))
            = ((bucketRow3 row answers).all
              (fun b => b.isEmpty || pureCanSolve2 rows2 b)) := by
        intro row
        apply all_congr
        intro b _
        rw [pureCanSolve2, pureCanSolve2, perm_any hperm]
      rw [any_congr (fun row _ => hpoint row), perm_any hperm]
    | n + 4 =>
      intro answers
      have hleaf1 : ∀ b, (canSolvePureRows rows1 (n + 3) b).isSome :=
        fun b => canSolvePureRows_isSome rows1 (n + 3) (by omega) b
      have hleaf2 : ∀ b, (canSolvePureRows rows2 (n + 3) b).isSome :=
        fun b => canSolvePureRows_isSome rows2 (n + 3) (by omega) b
      show pureGuessLoop (fun b => canSolvePureRows rows1 (n + 3) b) answers rows1
        = pureGuessLoop (fun b => canSolvePureRows rows2 (n + 3) b) answers rows2
      rw [pureGuessLoop_eq_any _ hleaf1, pureGuessLoop_eq_any _ hleaf2]
      have hpt : ∀ row,
          ((bucketRow row answers).all
              (fun b => (canSolvePureRows rows1 (n + 3) b).getD false))
            = ((bucketRow row answers).all
              (fun b => (canSolvePureRows rows2 (n + 3) b).getD false)) := by
        intro row
        apply all_congr
        intro b _
        rw [ih (n + 3) (by omega) b]
      rw [any_congr (fun row _ => hpt row), perm_any hperm]

theorem range_map_getD {α : Type} (l : List α) (d : α) :
    (List.range l.length).map (fun i => l.getD i d) = l := by
  apply List.ext_getElem
  · simp
  · intro i h1 h2
    simp only [List.getElem_map, List.getElem_range]
    exact getD_of_lt l i d h2

theorem rowsUsed_optimise_perm (s : Scorer) :
    (rowsUsed (optimise s)).Perm (rowsUsed s) := by
  have h1 : rowsUsed (optimise s)
      = (optimiseOrder s).map (fun p => s.score_cache.getD p.2 []) := by
    have hguess : (optimise s).guesses.length
        = ((optimiseOrder s).map (fun p => s.score_cache.getD p.2 [])).length := by
      simp [optimise]
    rw [rowsUsed, hguess]
    exact range_map_getD _ []
  have h2 : ((List.range s.guesses.length).map
        (fun i => (worstCase s i, i))).map (fun p => s.score_cache.getD p.2 [])
      = rowsUsed s := by
    rw [List.map_map]
    rfl
  rw [h1]
  have h3 := (optimiseOrder_perm s).map (fun p => s.score_cache.getD p.2 [])
  rw [h2] at h3
  exact h3

/-- C5, amended: the scratch-state coupling refuted only the literal reading;
for the state-correct semantics — can_solve with its N == 2 check meaning
"some guess's cached score map is injective on the candidate set", which is
what the scratch table computes whenever the counter stays fresh — the
boolean result is invariant under the optimise_guess_order permutation for
every guess budget and every candidate set. -/
theorem can_solve_pure_invariant_under_reranking
    (s : Scorer) (n : Nat) (answers : List Nat) :
    canSolvePureRows (rowsUsed (optimise s)) n answers
      = canSolvePureRows (rowsUsed s) n answers :=
  canSolvePureRows_perm (rowsUsed_optimise_perm s) n answers

/-! can_solve_noisy: soundness relative to can_solve, and incompleteness. -/

theorem bucketRow3_of_nil (row : List Nat) :
    ∀ b ∈ bucketRow3 row [], b = [] := by
  intro b hb
  have hb2 := (bucketRow3_perm_pre3 row []).mem_iff.mp hb
  obtain ⟨k, _, rfl⟩ := List.mem_map.mp hb2
  rfl

theorem allBuckets2_empties (s : Scorer) :
    ∀ (bs : List (List Nat)) (st : S2State), (∀ b ∈ bs, b = []) →
      allBuckets2 s bs st = (true, st) := by
  intro bs
  induction bs with
  | nil => intro st _; rfl
  | cons b rest ih =>
    intro st h
    have hb : b = [] := h b (List.mem_cons_self _ _)
    subst hb
    rw [show allBuckets2 s ([] :: rest) st = allBuckets2 s rest st from rfl]
    exact ih st (fun b hb => h b (List.mem_cons_of_mem _ hb))

theorem canSolve_empty_answers (s : Scorer) (hg : 0 < s.guesses.length) :
    ∀ (n : Nat) (st : S2State),
      (canSolve s n st []).map Prod.fst = some true := by
  obtain ⟨m, hm⟩ : ∃ m, s.guesses.length = m + 1 :=
    ⟨s.guesses.length - 1, by omega⟩
  have hrange : List.range s.guesses.length
      = 0 :: (List.range m).map Nat.succ := by
    rw [hm, List.range_succ_eq_map]
  intro n st
  match n with
  | 0 =>
    simp only [canSolve, hrange, solveGuessLoop, bucketAnswers_nil,
      solveAllBuckets]
    rfl
  | 1 =>
    simp only [canSolve, hrange, solveGuessLoop, bucketAnswers_nil,
      solveAllBuckets]
    rfl
  | 2 =>
    rw [show canSolve s 2 st [] = some (canSolve2 s [] st) from rfl]
    rw [canSolve2, hrange]
    rw [show canSolve2Go s [] (0 :: (List.range m).map Nat.succ) st
        = (let r := canSolveWithGuess2 s 0 [] st;
           if r.1 then (true, r.2) else canSolve2Go s [] ((List.range m).map Nat.succ) r.2)
      from rfl]
    rw [show canSolveWithGuess2 s 0 [] st
        = (true, ⟨(if st.counter = 255 then
              (⟨List.replicate MAX_BUCKET 255, 0⟩ : S2State)
            else ⟨st.table, st.counter + 1⟩).table,
            (if st.counter = 255 then
              (⟨List.replicate MAX_BUCKET 255, 0⟩ : S2State)
            else ⟨st.table, st.counter + 1⟩).counter⟩) from rfl]
    simp
  | 3 =>
    rw [show canSolve s 3 st [] = some (canSolve3 s [] st) from rfl]
    rw [canSolve3, hrange]
    have hb := allBuckets2_empties s (bucketAnswers3 s 0 []) st
      (bucketRow3_of_nil (rowAt s 0))
    rw [show canSolve3Go s [] (0 :: (List.range m).map Nat.succ) st
        = (let r := allBuckets2 s (bucketAnswers3 s 0 []) st;
           if r.1 then (true, r.2)
           else canSolve3Go s [] ((List.range m).map Nat.succ) r.2) from rfl]
    rw [hb]
    simp
  | n + 4 =>
    simp only [canSolve, hrange, solveGuessLoop, bucketAnswers_nil,
      solveAllBuckets]
    rfl

theorem noisyBuckets_eq_solveAllBuckets (s : Scorer) :
    ∀ (bs : List (List Nat)) (st : S2State),
      noisyBuckets s 4 bs st
        = solveAllBuckets (fun st2 b => canSolve s 3 st2 b) st bs := by
  intro bs
  induction bs with
  | nil => intro st; rfl
  | cons b rest ih =>
    intro st
    rw [show noisyBuckets s 4 (b :: rest) st
        = (match canSolve s 3 st b with
          | none => none
          | some (false, st2) => some (false, st2)
          | some (true, st2) => noisyBuckets s 4 rest st2) from rfl]
    rw [show solveAllBuckets (fun st2 b => canSolve s 3 st2 b) st (b :: rest)
        = (match canSolve s 3 st b with
          | none => none
          | some (false, st2) => some (false, st2)
          | some (true, st2) =>
              solveAllBuckets (fun st2 b => canSolve s 3 st2 b) st2 rest) from rfl]
    cases canSolve s 3 st b with
    | none => rfl
    | some r =>
      obtain ⟨v, st2⟩ := r
      cases v with
      | false => rfl
      | true => exact ih st2

theorem noisyGo_sound (s : Scorer) (answers : List Nat) :
    ∀ (L : List Nat) (st : S2State) (r : S2State),
      noisyGo s 4 answers L st = some (true, r) →
      ∀ rest : List Nat,
        solveGuessLoop s (fun st2 b => canSolve s 3 st2 b) answers
          (L ++ rest) st = some (true, r) := by
  intro L
  induction L with
  | nil =>
    intro st r h
    simp [noisyGo] at h
  | cons idx L ih =>
    intro st r h rest
    by_cases hidx : idx < s.guesses.length
    · rw [show noisyGo s 4 answers (idx :: L) st
          = (match noisyHelper s idx 4 answers st with
            | none => none
            | some (true, st2) => some (true, st2)
            | some (false, st2) => noisyGo s 4 answers L st2) from by
        rw [noisyGo, if_pos hidx]] at h
      have hhelper : noisyHelper s idx 4 answers st
          = solveAllBuckets (fun st2 b => canSolve s 3 st2 b) st
              (bucketAnswers s idx answers) := by
        rw [noisyHelper, noisyBuckets_eq_solveAllBuckets]
      rw [show solveGuessLoop s (fun st2 b => canSolve s 3 st2 b) answers
            ((idx :: L) ++ rest) st
          = (match solveAllBuckets (fun st2 b => canSolve s 3 st2 b) st
                (bucketAnswers s idx answers) with
            | none => none
            | some (true, st2) => some (true, st2)
            | some (false, st2) =>
                solveGuessLoop s (fun st2 b => canSolve s 3 st2 b) answers
                  (L ++ rest) st2) from rfl]
      rw [hhelper] at h
      cases hres : solveAllBuckets (fun st2 b => canSolve s 3 st2 b) st
          (bucketAnswers s idx answers) with
      | none => rw [hres] at h; exact absurd h (by simp)
      | some p =>
        obtain ⟨v, st2⟩ := p
        rw [hres] at h
        cases v with
        | true => simpa using h
        | false => exact ih st2 r (by simpa using h) rest
    · rw [noisyGo, if_neg hidx] at h
      exact absurd h (by simp)

/-- Concrete Scorer separating can_solve_noisy from can_solve: 13 guesses and
5 answers. Guesses 0 .. 9 score every answer 0 (useless); guess 10 splits the
answers as {0,1,2} / {3,4}; guess 11 as {0,3,4} / {1,2}; guess 12 as
{0,1,3} / {2,4}. Every guess leaves some bucket on which no guess's scores
are injective, so no single first guess solves within 3 — except that after
guess 10, bucket {0,1,2} falls to guess 11 then guess 12, and bucket {3,4}
falls to guess 12. Hence the full set is solvable with 4 guesses only via
guess 10, which can_solve_noisy never tries. -/
def scorerDeep : Scorer :=
  { guesses := [[0, 0, 0, 0, 0], [1, 1, 1, 1, 1], [2, 2, 2, 2, 2],
                [3, 3, 3, 3, 3], [4, 4, 4, 4, 4], [5, 5, 5, 5, 5],
                [6, 6, 6, 6, 6], [7, 7, 7, 7, 7], [8, 8, 8, 8, 8],
                [9, 9, 9, 9, 9], [10, 10, 10, 10, 10], [11, 11, 11, 11, 11],
                [12, 12, 12, 12, 12]],
    answers := [[0, 0, 0, 0, 0], [1, 1, 1, 1, 1], [2, 2, 2, 2, 2],
                [3, 3, 3, 3, 3], [4, 4, 4, 4, 4]],
    score_cache := [[0, 0, 0, 0, 0], [0, 0, 0, 0, 0], [0, 0, 0, 0, 0],
                    [0, 0, 0, 0, 0], [0, 0, 0, 0, 0], [0, 0, 0, 0, 0],
                    [0, 0, 0, 0, 0], [0, 0, 0, 0, 0], [0, 0, 0, 0, 0],
                    [0, 0, 0, 0, 0], [1, 1, 1, 2, 2], [3, 4, 4, 3, 3],
                    [5, 5, 6, 5, 6]] }


/-! The two runs above are verified in stages: one lemma per first-guess
step, each a bounded computation, with the scratch state pinned to an
explicit literal at every stage boundary. The first ten steps are shared by
the two runs, which perform identical calls there. -/

def deepSt (base v0 v1 v2 v3 v4 v5 v6 c : Nat) : S2State :=
  ⟨(((((((List.replicate MAX_BUCKET base).set 0 v0).set 1 v1).set 2 v2).set 3
      v3).set 4 v4).set 5 v5).set 6 v6, c⟩

def dst1 : S2State := deepSt 0 166 167 154 168 168 169 0 169
def dst2 : S2State := deepSt 255 79 80 67 81 81 82 255 82
def dst3 : S2State := deepSt 255 248 249 236 250 250 251 255 251
def dst4 : S2State := deepSt 255 161 162 149 163 163 164 255 164
def dst5 : S2State := deepSt 255 74 75 62 76 76 77 255 77
def dst6 : S2State := deepSt 255 243 244 231 245 245 246 255 246
def dst7 : S2State := deepSt 255 156 157 144 158 158 159 255 159
def dst8 : S2State := deepSt 255 69 70 57 71 71 72 255 72
def dst9 : S2State := deepSt 255 238 239 226 240 240 241 255 241
def dst10 : S2State := deepSt 255 151 152 139 153 153 154 255 154
def dst11 : S2State := deepSt 255 55 52 255 40 53 54 54 55
def dst12 : S2State := deepSt 255 65 52 66 67 53 68 68 68

set_option maxRecDepth 100000 in
set_option maxHeartbeats 4000000 in
theorem canSolve3_deep_0 :
    canSolve scorerDeep 3 initS2 [0, 1, 2, 3, 4] = some (false, dst1) := by
  decide

set_option maxRecDepth 100000 in
set_option maxHeartbeats 4000000 in
theorem canSolve3_deep_1 :
    canSolve scorerDeep 3 dst1 [0, 1, 2, 3, 4] = some (false, dst2) := by
  decide

set_option maxRecDepth 100000 in
set_option maxHeartbeats 4000000 in
theorem canSolve3_deep_2 :
    canSolve scorerDeep 3 dst2 [0, 1, 2, 3, 4] = some (false, dst3) := by
  decide

set_option maxRecDepth 100000 in
set_option maxHeartbeats 4000000 in
theorem canSolve3_deep_3 :
    canSolve scorerDeep 3 dst3 [0, 1, 2, 3, 4] = some (false, dst4) := by
  decide

set_option maxRecDepth 100000 in
set_option maxHeartbeats 4000000 in
theorem canSolve3_deep_4 :
    canSolve scorerDeep 3 dst4 [0, 1, 2, 3, 4] = some (false, dst5) := by
  decide

set_option maxRecDepth 100000 in
set_option maxHeartbeats 4000000 in
theorem canSolve3_deep_5 :
    canSolve scorerDeep 3 dst5 [0, 1, 2, 3, 4] = some (false, dst6) := by
  decide

set_option maxRecDepth 100000 in
set_option maxHeartbeats 4000000 in
theorem canSolve3_deep_6 :
    canSolve scorerDeep 3 dst6 [0, 1, 2, 3, 4] = some (false, dst7) := by
  decide

set_option maxRecDepth 100000 in
set_option maxHeartbeats 4000000 in
theorem canSolve3_deep_7 :
    canSolve scorerDeep 3 dst7 [0, 1, 2, 3, 4] = some (false, dst8) := by
  decide

set_option maxRecDepth 100000 in
set_option maxHeartbeats 4000000 in
theorem canSolve3_deep_8 :
    canSolve scorerDeep 3 dst8 [0, 1, 2, 3, 4] = some (false, dst9) := by
  decide

set_option maxRecDepth 100000 in
set_option maxHeartbeats 4000000 in
theorem canSolve3_deep_9 :
    canSolve scorerDeep 3 dst9 [0, 1, 2, 3, 4] = some (false, dst10) := by
  decide

set_option maxRecDepth 100000 in
set_option maxHeartbeats 4000000 in
theorem canSolve3_deep_b1 :
    canSolve scorerDeep 3 dst10 [0, 1, 2] = some (true, dst11) := by
  decide

set_option maxRecDepth 100000 in
set_option maxHeartbeats 4000000 in
theorem canSolve3_deep_b2 :
    canSolve scorerDeep 3 dst11 [3, 4] = some (true, dst12) := by
  decide

theorem deep_step (g : Nat) (gs : List Nat) (st st2 : S2State)
    (hb : bucketAnswers scorerDeep g [0, 1, 2, 3, 4] = [[0, 1, 2, 3, 4]])
    (h : canSolve scorerDeep 3 st [0, 1, 2, 3, 4] = some (false, st2)) :
    solveGuessLoop scorerDeep (fun st2 b => canSolve scorerDeep 3 st2 b)
        [0, 1, 2, 3, 4] (g :: gs) st
      = solveGuessLoop scorerDeep (fun st2 b => canSolve scorerDeep 3 st2 b)
        [0, 1, 2, 3, 4] gs st2 := by
  simp [solveGuessLoop, hb, solveAllBuckets, h]

theorem deep_step_true (g : Nat) (gs : List Nat) (st st2 st3 : S2State)
    (hb : bucketAnswers scorerDeep g [0, 1, 2, 3, 4] = [[0, 1, 2], [3, 4]])
    (h1 : canSolve scorerDeep 3 st [0, 1, 2] = some (true, st2))
    (h2 : canSolve scorerDeep 3 st2 [3, 4] = some (true, st3)) :
    solveGuessLoop scorerDeep (fun st2 b => canSolve scorerDeep 3 st2 b)
        [0, 1, 2, 3, 4] (g :: gs) st
      = some (true, st3) := by
  simp [solveGuessLoop, hb, solveAllBuckets, h1, h2]

theorem deep_nstep (idx : Nat) (idxs : List Nat) (st st2 : S2State)
    (hidx : idx < scorerDeep.guesses.length)
    (hb : bucketAnswers scorerDeep idx [0, 1, 2, 3, 4] = [[0, 1, 2, 3, 4]])
    (h : canSolve scorerDeep 3 st [0, 1, 2, 3, 4] = some (false, st2)) :
    noisyGo scorerDeep 4 [0, 1, 2, 3, 4] (idx :: idxs) st
      = noisyGo scorerDeep 4 [0, 1, 2, 3, 4] idxs st2 := by
  simp [noisyGo, hidx, noisyHelper, hb, noisyBuckets, h]

set_option maxRecDepth 4000 in
theorem noisy_deep_run :
    canSolveNoisy scorerDeep 4 initS2 [0, 1, 2, 3, 4] = some (false, dst10) := by
  have hbU : ∀ k, k < 10 →
      bucketAnswers scorerDeep k [0, 1, 2, 3, 4] = [[0, 1, 2, 3, 4]] := by
    decide
  rw [canSolveNoisy,
    show List.range 10 = [0, 1, 2, 3, 4, 5, 6, 7, 8, 9] from by decide]
  rw [deep_nstep 0 _ initS2 dst1 (by decide) (hbU 0 (by decide)) canSolve3_deep_0]
  rw [deep_nstep 1 _ dst1 dst2 (by decide) (hbU 1 (by decide)) canSolve3_deep_1]
  rw [deep_nstep 2 _ dst2 dst3 (by decide) (hbU 2 (by decide)) canSolve3_deep_2]
  rw [deep_nstep 3 _ dst3 dst4 (by decide) (hbU 3 (by decide)) canSolve3_deep_3]
  rw [deep_nstep 4 _ dst4 dst5 (by decide) (hbU 4 (by decide)) canSolve3_deep_4]
  rw [deep_nstep 5 _ dst5 dst6 (by decide) (hbU 5 (by decide)) canSolve3_deep_5]
  rw [deep_nstep 6 _ dst6 dst7 (by decide) (hbU 6 (by decide)) canSolve3_deep_6]
  rw [deep_nstep 7 _ dst7 dst8 (by decide) (hbU 7 (by decide)) canSolve3_deep_7]
  rw [deep_nstep 8 _ dst8 dst9 (by decide) (hbU 8 (by decide)) canSolve3_deep_8]
  rw [deep_nstep 9 _ dst9 dst10 (by decide) (hbU 9 (by decide)) canSolve3_deep_9]
  rfl

set_option maxRecDepth 4000 in
theorem canSolve4_deep_run :
    canSolve scorerDeep 4 initS2 [0, 1, 2, 3, 4] = some (true, dst12) := by
  have hbU : ∀ k, k < 10 →
      bucketAnswers scorerDeep k [0, 1, 2, 3, 4] = [[0, 1, 2, 3, 4]] := by
    decide
  have hb10 : bucketAnswers scorerDeep 10 [0, 1, 2, 3, 4]
      = [[0, 1, 2], [3, 4]] := by decide
  rw [show canSolve scorerDeep 4 initS2 [0, 1, 2, 3, 4]
      = solveGuessLoop scorerDeep (fun st2 b => canSolve scorerDeep 3 st2 b)
          [0, 1, 2, 3, 4] (List.range scorerDeep.guesses.length) initS2
    from rfl]
  rw [show List.range scorerDeep.guesses.length
      = [0, 1, 2, 3, 4, 5, 6, 7, 8, 9, 10, 11, 12] from by decide]
  rw [deep_step 0 _ initS2 dst1 (hbU 0 (by decide)) canSolve3_deep_0]
  rw [deep_step 1 _ dst1 dst2 (hbU 1 (by decide)) canSolve3_deep_1]
  rw [deep_step 2 _ dst2 dst3 (hbU 2 (by decide)) canSolve3_deep_2]
  rw [deep_step 3 _ dst3 dst4 (hbU 3 (by decide)) canSolve3_deep_3]
  rw [deep_step 4 _ dst4 dst5 (hbU 4 (by decide)) canSolve3_deep_4]
  rw [deep_step 5 _ dst5 dst6 (hbU 5 (by decide)) canSolve3_deep_5]
  rw [deep_step 6 _ dst6 dst7 (hbU 6 (by decide)) canSolve3_deep_6]
  rw [deep_step 7 _ dst7 dst8 (hbU 7 (by decide)) canSolve3_deep_7]
  rw [deep_step 8 _ dst8 dst9 (hbU 8 (by decide)) canSolve3_deep_8]
  rw [deep_step 9 _ dst9 dst10 (hbU 9 (by decide)) canSolve3_deep_9]
  rw [deep_step_true 10 _ dst10 dst11 dst12 hb10 canSolve3_deep_b1 canSolve3_deep_b2]

/-- C9: can_solve_noisy tries only the first 10 ranked guesses, and its
helper insists (via `assert_eq!(num_guesses - 1, 3)`) that the budget is
exactly 4 whenever any bucket exists. Its true results are sound — whenever
it answers true, can_solve with the same budget and candidate set answers
true — but its false results are not conclusive: on `scorerDeep`, whose only
budget-4 solving first guess sits at index 10, can_solve_noisy answers false
while can_solve answers true. -/
theorem can_solve_noisy_spec :
    (∀ (s : Scorer) (g N : Nat) (answers : List Nat) (st : S2State),
        N ≠ 4 → answers ≠ [] → noisyHelper s g N answers st = none)
    ∧ (∀ (s : Scorer) (N : Nat) (st : S2State) (answers : List Nat)
        (r : Bool × S2State),
        10 ≤ s.guesses.length →
        canSolveNoisy s N st answers = some r → r.1 = true →
        (canSolve s N st answers).map Prod.fst = some true)
    ∧ (canSolveNoisy scorerDeep 4 initS2 [0, 1, 2, 3, 4]).map Prod.fst
        = some false
    ∧ (canSolve scorerDeep 4 initS2 [0, 1, 2, 3, 4]).map Prod.fst
        = some true := by
  refine ⟨?_, ?_, by rw [noisy_deep_run]; rfl, by rw [canSolve4_deep_run]; rfl⟩
  · intro s g N answers st hN hans
    obtain ⟨b, bs, hbk⟩ :=
      List.exists_cons_of_ne_nil (bucketAnswers_ne_nil s g answers hans)
    rw [noisyHelper, hbk]
    rcases Nat.eq_zero_or_pos N with h0 | hpos
    · subst h0
      rw [noisyBuckets, if_pos rfl]
    · have h13 : N - 1 ≠ 3 := by omega
      rw [noisyBuckets, if_neg (by omega), if_pos h13]
  · intro s N st answers r h10 hns hr
    obtain ⟨v, r2⟩ := r
    simp only at hr
    subst hr
    by_cases hN : N = 4
    · subst hN
      have hsplit : List.range s.guesses.length
          = List.range 10 ++ (List.range (s.guesses.length - 10)).map (10 + ·) := by
        rw [← List.range_add]
        congr 1
        omega
      have h := noisyGo_sound s answers (List.range 10) st r2 hns
        ((List.range (s.guesses.length - 10)).map (10 + ·))
      rw [show canSolve s 4 st answers
          = solveGuessLoop s (fun st2 b => canSolve s 3 st2 b) answers
              (List.range s.guesses.length) st from rfl, hsplit, h]
      rfl
    · have hempty : answers = [] := by
        by_contra hne
        have h0 : (0 : Nat) < s.guesses.length := by omega
        have hgo : noisyGo s N answers (List.range 10) st = none := by
          rw [show List.range 10 = 0 :: [1, 2, 3, 4, 5, 6, 7, 8, 9] from rfl]
          rw [noisyGo, if_pos h0]
          rw [(by exact fun s g => rfl :
            ∀ (s : Scorer) (g : Nat), noisyHelper s g N answers st
              = noisyBuckets s N (bucketAnswers s g answers) st) s 0]
          have := (fun hbk => hbk) (bucketAnswers_ne_nil s 0 answers hne)
          obtain ⟨b, bs, hbk⟩ := List.exists_cons_of_ne_nil this
          rw [hbk]
          rcases Nat.eq_zero_or_pos N with h0' | hpos
          · subst h0'
            rw [noisyBuckets, if_pos rfl]
          · have h13 : N - 1 ≠ 3 := by omega
            rw [noisyBuckets, if_neg (by omega), if_pos h13]
        rw [canSolveNoisy, hgo] at hns
        exact absurd hns (by simp)
      subst hempty
      exact canSolve_empty_answers s (by omega) N st

set_option maxRecDepth 100000 in
set_option maxHeartbeats 4000000 in
/-- Witness for C9: the helper's assert fires on a budget-2 call with a
non-empty bucket, and a sound true result of can_solve_noisy (on the
singleton candidate set {0} of `scorerDeep`) transfers to can_solve. -/
theorem can_solve_noisy_spec_witness :
    noisyHelper scorerOne 0 2 [0] initS2 = none
    ∧ (canSolve scorerDeep 4 initS2 [0]).map Prod.fst = some true :=
  ⟨can_solve_noisy_spec.1 scorerOne 0 2 [0] initS2 (by decide) (by decide),
    can_solve_noisy_spec.2.1 scorerDeep 4 initS2 [0]
      ((canSolveNoisy scorerDeep 4 initS2 [0]).getD (false, initS2))
      (by decide) (by decide) (by decide)⟩

end Wordle
